import Mathlib

/-!
Verification development for the upstash-lua client library.

The repository is a TypeScript client around a remote Redis-like store.
This file gives a shallow embedding of its functional core:

* the template compiler (`lua-template.ts`): `compileLua`, which turns a
  tagged template with named `KEYS.x` / `ARGV.y` references into a literal
  Lua source string using positional `KEYS[i]` / `ARGV[j]` references;
* the per-connection single-flight load cache and the EVALSHA/NOSCRIPT
  retry protocol (`eval-with-cache.ts`): `isNoScriptError`, `ensureLoaded`,
  `evalWithCache`;
* the validation boundary (`define-script.ts`, `standard-schema.ts`,
  `errors.ts`): `validateAndCollect`, `parseStandard`, the `run` method;
* the `hashResult` schema wrapper (`hash-result.ts`): `pairsToObject` and
  the wrapping validator.

Sequential code is embedded as pure Lean functions that mirror the source
line by line; exceptions become `Except`; the transport (network) is an
oracle of per-call results; effect counts (execute attempts, upload
attempts, validated fields) are made explicit so that call-count claims
become provable statements.  The cooperative-concurrency behaviour of
`ensureLoaded` is embedded as a labelled small-step transition system
whose atomic steps are exactly the await-free sections of the source.
-/

namespace UpstashLua

/-! ## Template compiler (`lua-template.ts`)

`LuaToken`, `CompiledLua` and `compileLua` mirror the definitions in
`lua-template.ts`.  A `CompiledLua` holds the template's literal string
segments (`strings`, of length one more than `tokens` in the intended
use, though the source tolerates any lengths via `?? ""`) and the
interpolated tokens in order. -/

/-- Kind of a template reference: `"key"` or `"arg"` in the source. -/
inductive TokenKind where
  | key
  | arg
deriving DecidableEq, Repr

/-- `LuaToken` from `lua-template.ts`: a named reference produced by the
`KEYS`/`ARGV` proxies (the `LUA_TOKEN` brand is a type-level tag and is
not part of the data). -/
structure LuaToken where
  kind : TokenKind
  name : String
deriving DecidableEq, Repr

/-- `CompiledLua` from `lua-template.ts`: the template's literal segments
and the interpolated tokens, reference `i` sitting between segment `i`
and segment `i+1`. -/
structure CompiledLua where
  strings : List String
  tokens : List LuaToken
deriving DecidableEq, Repr

/-- `strings[i] ?? ""` from the source: segment access that defaults to
the empty string out of range. -/
def strAt (l : List String) (i : Nat) : String :=
  (l.get? i).getD ""

/-- The name-to-1-based-index lookup `Map` built by the two `for` loops in
`compileLua` (`map.set(names[i], i + 1)` for `i = 0, 1, ...`): a later
`set` for the same name overwrites an earlier one. -/
def buildIndexMap : List String → Nat → (String → Option Nat)
  | [], _ => fun _ => none
  | nm :: rest, i =>
      fun x =>
        match buildIndexMap rest (i + 1) x with
        | some v => some v
        | none => if x = nm then some i else none

/-- The error thrown by `compileLua` on a reference whose name is not in
the corresponding lookup table.  The source throws an `Error` whose
message embeds the offending name and (via the wording `Unknown key` /
`Unknown arg`) its kind; the embedding records that content directly. -/
structure UnknownRef where
  kind : TokenKind
  name : String
deriving DecidableEq, Repr

/-- The `for` loop of `compileLua`: walk `tokens` with index `i`,
appending for each token its positional replacement and the following
literal segment `strings[i + 1] ?? ""` to the accumulated `result`. -/
def compileLoop (kmap amap : String → Option Nat) (strs : List String) :
    List LuaToken → Nat → String → Except UnknownRef String
  | [], _, acc => .ok acc
  | t :: rest, i, acc =>
      match t.kind with
      | .key =>
          match kmap t.name with
          | none => .error ⟨.key, t.name⟩
          | some idx =>
              compileLoop kmap amap strs rest (i + 1)
                (acc ++ ("KEYS[" ++ toString idx ++ "]") ++ strAt strs (i + 1))
      | .arg =>
          match amap t.name with
          | none => .error ⟨.arg, t.name⟩
          | some idx =>
              compileLoop kmap amap strs rest (i + 1)
                (acc ++ ("ARGV[" ++ toString idx ++ "]") ++ strAt strs (i + 1))

/-- `compileLua` from `lua-template.ts`: build the two 1-based lookup
maps, start from `strings[0] ?? ""`, and process the tokens in order.
The thrown `Error` on an unknown reference becomes `Except.error`. -/
def compileLua (c : CompiledLua) (keyNames argNames : List String) :
    Except UnknownRef String :=
  compileLoop (buildIndexMap keyNames 1) (buildIndexMap argNames 1)
    c.strings c.tokens 0 (strAt c.strings 0)

/-- Spec-side expected replacement for one token: `KEYS[i]` / `ARGV[j]`
with `i` (resp. `j`) the 1-based position of the name in the declared
key (resp. arg) name list. -/
def specReplacement (keyNames argNames : List String) (t : LuaToken) : String :=
  match t.kind with
  | .key => "KEYS[" ++ toString (keyNames.indexOf t.name + 1) ++ "]"
  | .arg => "ARGV[" ++ toString (argNames.indexOf t.name + 1) ++ "]"

/-- Spec-side tail of the compiled output: replacements interleaved with
the literal segments `strings[i]` for `i = 1, 2, ...`, byte for byte. -/
def specTail (keyNames argNames : List String) (strs : List String) :
    List LuaToken → Nat → String
  | [], _ => ""
  | t :: rest, i =>
      specReplacement keyNames argNames t ++ strAt strs i ++
        specTail keyNames argNames strs rest (i + 1)

/-- Spec-side description of `compileLua`'s output, following §4.1 of the
spec: the literal segments in order, with each reference replaced by its
positional form. -/
def specCompile (keyNames argNames : List String) (c : CompiledLua) : String :=
  strAt c.strings 0 ++ specTail keyNames argNames c.strings c.tokens 1

lemma buildIndexMap_eq_none {names : List String} {n : String} (i : Nat)
    (h : n ∉ names) : buildIndexMap names i n = none := by
  induction names generalizing i with
  | nil => rfl
  | cons nm rest ih =>
      simp only [List.mem_cons, not_or] at h
      simp only [buildIndexMap, ih i.succ h.2, if_neg h.1]

lemma buildIndexMap_eq_indexOf {names : List String} {n : String} (i : Nat)
    (hnd : names.Nodup) (h : n ∈ names) :
    buildIndexMap names i n = some (i + names.indexOf n) := by
  induction names generalizing i with
  | nil => cases h
  | cons nm rest ih =>
      rcases List.nodup_cons.mp hnd with ⟨hnm, hrest⟩
      by_cases hn : n = nm
      · subst hn
        simp [buildIndexMap, buildIndexMap_eq_none i.succ hnm,
          List.indexOf_cons_self]
      · have hmem : n ∈ rest := by
          rcases List.mem_cons.mp h with h' | h'
          · exact absurd h' hn
          · exact h'
        simp only [buildIndexMap, ih i.succ hrest hmem,
          List.indexOf_cons_ne _ (Ne.symm hn)]
        exact congrArg some (by omega)

lemma compileLoop_ok {keyNames argNames : List String} {toks : List LuaToken}
    (strs : List String)
    (hk : keyNames.Nodup) (ha : argNames.Nodup)
    (hdecl : ∀ t ∈ toks, (t.kind = .key → t.name ∈ keyNames) ∧
      (t.kind = .arg → t.name ∈ argNames)) :
    ∀ (i : Nat) (acc : String),
      compileLoop (buildIndexMap keyNames 1) (buildIndexMap argNames 1)
        strs toks i acc =
      .ok (acc ++ specTail keyNames argNames strs toks (i + 1)) := by
  induction toks with
  | nil => intro i acc; simp [compileLoop, specTail]
  | cons t rest ih =>
      intro i acc
      have hd := hdecl t (List.mem_cons_self t rest)
      have hrest : ∀ t ∈ rest, (t.kind = .key → t.name ∈ keyNames) ∧
          (t.kind = .arg → t.name ∈ argNames) :=
        fun t' ht' => hdecl t' (List.mem_cons_of_mem t ht')
      cases hknd : t.kind with
      | key =>
          have hmem := hd.1 hknd
          simp only [compileLoop, hknd, buildIndexMap_eq_indexOf 1 hk hmem,
            ih hrest, specTail, specReplacement, hknd, Nat.add_comm 1]
          simp [String.append_assoc]
      | arg =>
          have hmem := hd.2 hknd
          simp only [compileLoop, hknd, buildIndexMap_eq_indexOf 1 ha hmem,
            ih hrest, specTail, specReplacement, hknd, Nat.add_comm 1]
          simp [String.append_assoc]

/-- **C4.** For every compiled template whose references all name declared
keys/args (the declared name lists being duplicate-free, as they are in
the source, where they arise from `Object.keys`), `compileLua` succeeds
and its output is exactly the spec-side string: the literal segments
byte for byte in order, each `key` reference replaced by `KEYS[i]` and
each `arg` reference by `ARGV[j]`, with `i`/`j` the 1-based position of
the referenced name in the key/arg name list (a function of the name
alone, so repeated references to one name resolve to the same index);
in particular the template `SET <key:k> <arg:v>` with keys `["k"]` and
args `["v"]` compiles to `SET KEYS[1] ARGV[1]`. -/
theorem compileLua_emits_positional_references
    (keyNames argNames strs : List String) (toks : List LuaToken)
    (hk : keyNames.Nodup) (ha : argNames.Nodup)
    (hdecl : ∀ t ∈ toks, (t.kind = .key → t.name ∈ keyNames) ∧
      (t.kind = .arg → t.name ∈ argNames)) :
    compileLua ⟨strs, toks⟩ keyNames argNames =
      .ok (specCompile keyNames argNames ⟨strs, toks⟩) ∧
    compileLua ⟨["SET ", " ", ""], [⟨.key, "k"⟩, ⟨.arg, "v"⟩]⟩ ["k"] ["v"] =
      .ok "SET KEYS[1] ARGV[1]" := by
  constructor
  · unfold compileLua specCompile
    exact compileLoop_ok strs hk ha hdecl 0 (strAt strs 0)
  · rfl

/-- Witness for C4 at a concrete template with a repeated reference. -/
theorem compileLua_emits_positional_references_witness :
    compileLua ⟨["local a = ", "; local b = ", "; return ", ""],
        [⟨.key, "x"⟩, ⟨.arg, "n"⟩, ⟨.key, "x"⟩]⟩ ["x", "y"] ["n"] =
      .ok (specCompile ["x", "y"] ["n"]
        ⟨["local a = ", "; local b = ", "; return ", ""],
          [⟨.key, "x"⟩, ⟨.arg, "n"⟩, ⟨.key, "x"⟩]⟩) :=
  (compileLua_emits_positional_references ["x", "y"] ["n"]
    ["local a = ", "; local b = ", "; return ", ""]
    [⟨.key, "x"⟩, ⟨.arg, "n"⟩, ⟨.key, "x"⟩]
    (by decide) (by decide) (by decide)).1

/-! ## Transport values and errors (`eval-with-cache.ts`)

Script results are arbitrary JS values (`unknown` in the source); the
embedding distinguishes the shapes the code inspects.  A failure of a
transport call is an arbitrary thrown value; `isNoScriptError` inspects
whether it is an `Error` (looking at `.message`), a plain string, or
anything else. -/

/-- A JS value as far as this library observes it: a string, a number,
`undefined`, or anything else. -/
inductive JSVal where
  | vstr (s : String)
  | vnum (n : Int)
  | vundef
  | vother
deriving DecidableEq, Repr

/-- A thrown transport failure: an `Error` object carrying a `message`
string, a thrown plain string, or any other thrown value. -/
inductive RedisError where
  | errObj (message : String)
  | strVal (s : String)
  | otherVal
deriving DecidableEq, Repr

/-- `text.toUpperCase().includes("NOSCRIPT")` from `isNoScriptError`:
case-insensitive substring match of the fixed marker token (uppercasing
character by character, as `toUpperCase` does on the ASCII error text the
store produces). -/
def upperHasNoScript (s : String) : Bool :=
  decide ("NOSCRIPT".toList <:+: s.toList.map Char.toUpper)

/-- `isNoScriptError` from `eval-with-cache.ts`: an `Error`'s message or a
thrown string is matched case-insensitively against `"NOSCRIPT"`; any
other thrown value is not a NOSCRIPT signal. -/
def isNoScriptError : RedisError → Bool
  | .errObj m => upperHasNoScript m
  | .strVal s => upperHasNoScript s
  | .otherVal => false

/-- Spec-side: the textual representation of a thrown failure that the
"script unknown" detection consults (an `Error`'s `.message`, or the
thrown string itself); other values have none. -/
def textOf : RedisError → Option String
  | .errObj m => some m
  | .strVal s => some s
  | .otherVal => none

/-! ## Single-caller load cache and retry protocol (`eval-with-cache.ts`)

For the claims about one call's behaviour the per-connection cache is
observed sequentially: it maps each SHA to its load entry, and every
entry present at a sequential observation point is a completed
successful upload (failed entries are deleted by their creator before
the call completes, see the concurrent model below).  The transport is
an oracle giving the result of each network call the protocol can make:
the first `evalsha`, the `scriptLoad`, and the retry `evalsha`.  The
number of upload calls and the argument list of every execute call are
recorded explicitly. -/

/-- Oracle of transport results for one `evalWithCache` call. -/
structure Transport where
  firstEval : Except RedisError JSVal
  loadResult : Except RedisError Unit
  retryEval : Except RedisError JSVal
deriving Repr

/-- The arguments of one `redis.evalsha(sha, keys, args)` call. -/
structure EvalCall where
  sha : String
  keys : List String
  args : List String
deriving DecidableEq, Repr

/-- `EvalWithCacheOptions` from `eval-with-cache.ts`. -/
structure EvalOpts where
  script : String
  sha : String
  keys : List String
  args : List String
deriving DecidableEq, Repr

/-- `ensureLoaded` from `eval-with-cache.ts`, observed by a single
sequential caller: on a cache hit the existing entry's completion is
returned and no upload happens; on a miss `redis.scriptLoad` is invoked
once, the entry being kept on success and deleted (net effect: the map
is unchanged) on failure, the failure being rethrown.  Returns the
call's result, the cache afterwards, and the number of `scriptLoad`
invocations. -/
def ensureLoadedSeq (loadResult : Except RedisError Unit)
    (cache : List String) (sha : String) :
    Except RedisError Unit × List String × Nat :=
  if sha ∈ cache then (.ok (), cache, 0)
  else
    match loadResult with
    | .ok _ => (.ok (), sha :: cache, 1)
    | .error e => (.error e, cache, 1)

/-- The observable outcome of one `evalWithCache` call: its result, the
argument list of every `evalsha` call made, the number of `scriptLoad`
calls made, and the cache afterwards. -/
structure EvalOutcome where
  result : Except RedisError JSVal
  execCalls : List EvalCall
  uploadCalls : Nat
  cache : List String
deriving Repr

/-- `evalWithCache` from `eval-with-cache.ts`: try `evalsha`; on a
failure that is not a NOSCRIPT signal, rethrow it unchanged; on a
NOSCRIPT signal run `ensureLoaded` and, if it succeeds, retry `evalsha`
exactly once, that second result (success or failure) being final; if
`ensureLoaded` fails, its failure is final and no retry happens. -/
def evalWithCache (t : Transport) (cache : List String) (o : EvalOpts) :
    EvalOutcome :=
  let call : EvalCall := ⟨o.sha, o.keys, o.args⟩
  match t.firstEval with
  | .ok v => ⟨.ok v, [call], 0, cache⟩
  | .error e =>
      if isNoScriptError e then
        match ensureLoadedSeq t.loadResult cache o.sha with
        | (.ok _, c', u) => ⟨t.retryEval, [call, call], u, c'⟩
        | (.error e', c', u) => ⟨.error e', [call], u, c'⟩
      else ⟨.error e, [call], 0, cache⟩

/-! ## Definition-time pipeline (`define-script.ts`)

`defineScript` resolves the template through `compileLua` synchronously
at definition time; only a successfully produced `Script` object can
ever reach the transport.  `defineThenRun` makes this explicit: it is
the composition of the definition step and one execution, recording all
execute and upload calls the whole pipeline makes. -/

/-- Outcome of defining a script from a template and (when the
definition succeeded) executing it once. -/
structure PipelineOutcome where
  result : Except UnknownRef (Except RedisError JSVal)
  execCalls : List EvalCall
  uploadCalls : Nat
deriving Repr

/-- `defineScript` (function-form `lua`) followed by one execution: the
template is compiled at definition time; a compile failure aborts the
definition and nothing is ever executed, a compile success yields the
script whose execution calls `evalWithCache`. -/
def defineThenRun (c : CompiledLua) (keyNames argNames : List String)
    (sha : String) (t : Transport) (cache : List String)
    (keys args : List String) : PipelineOutcome :=
  match compileLua c keyNames argNames with
  | .error e => ⟨.error e, [], 0⟩
  | .ok src =>
      let out := evalWithCache t cache ⟨src, sha, keys, args⟩
      ⟨.ok out.result, out.execCalls, out.uploadCalls⟩

/-- A token whose name is absent from the corresponding declared name
list. -/
def Undeclared (keyNames argNames : List String) (t : LuaToken) : Prop :=
  (t.kind = .key ∧ t.name ∉ keyNames) ∨ (t.kind = .arg ∧ t.name ∉ argNames)

instance (keyNames argNames : List String) (t : LuaToken) :
    Decidable (Undeclared keyNames argNames t) := by
  unfold Undeclared; infer_instance

lemma buildIndexMap_isSome {names : List String} {n : String} (i : Nat)
    (h : n ∈ names) : (buildIndexMap names i n).isSome := by
  induction names generalizing i with
  | nil => cases h
  | cons nm rest ih =>
      by_cases hn : n ∈ rest
      · have := ih i.succ hn
        simp only [buildIndexMap]
        cases hrest : buildIndexMap rest (i + 1) n with
        | some v => simp
        | none => rw [hrest] at this; simp at this
      · have hnm : n = nm := by
          rcases List.mem_cons.mp h with h' | h'
          · exact h'
          · exact absurd h' hn
        simp only [buildIndexMap, buildIndexMap_eq_none i.succ hn, if_pos hnm]
        simp

lemma compileLoop_error {keyNames argNames : List String}
    (strs : List String) :
    ∀ (toks : List LuaToken) (i : Nat) (acc : String),
      (∃ t ∈ toks, Undeclared keyNames argNames t) →
      ∃ t', t' ∈ toks ∧ Undeclared keyNames argNames t' ∧
        compileLoop (buildIndexMap keyNames 1) (buildIndexMap argNames 1)
          strs toks i acc = .error ⟨t'.kind, t'.name⟩ := by
  intro toks
  induction toks with
  | nil => rintro i acc ⟨t, ht, _⟩; cases ht
  | cons t0 rest ih =>
      intro i acc hex
      by_cases h0 : Undeclared keyNames argNames t0
      · refine ⟨t0, List.mem_cons_self t0 rest, h0, ?_⟩
        rcases h0 with ⟨hk, hnm⟩ | ⟨hk, hnm⟩
        · simp [compileLoop, hk, buildIndexMap_eq_none 1 hnm]
        · simp [compileLoop, hk, buildIndexMap_eq_none 1 hnm]
      · have hrest : ∃ t ∈ rest, Undeclared keyNames argNames t := by
          rcases hex with ⟨t, ht, hu⟩
          rcases List.mem_cons.mp ht with h' | h'
          · exact absurd (h' ▸ hu) h0
          · exact ⟨t, h', hu⟩
        have hkd : t0.kind = .key → t0.name ∈ keyNames := by
          intro hk
          by_contra hmem
          exact h0 (Or.inl ⟨hk, hmem⟩)
        have had : t0.kind = .arg → t0.name ∈ argNames := by
          intro hk
          by_contra hmem
          exact h0 (Or.inr ⟨hk, hmem⟩)
        cases hknd : t0.kind with
        | key =>
            have := @buildIndexMap_isSome keyNames t0.name 1 (hkd hknd)
            cases hlook : buildIndexMap keyNames 1 t0.name with
            | none => rw [hlook] at this; simp at this
            | some idx =>
                rcases ih (i + 1)
                  (acc ++ ("KEYS[" ++ toString idx ++ "]") ++ strAt strs (i + 1))
                  hrest with ⟨t', ht', hu', heq⟩
                exact ⟨t', List.mem_cons_of_mem t0 ht', hu', by
                  simp [compileLoop, hknd, hlook, heq]⟩
        | arg =>
            have := @buildIndexMap_isSome argNames t0.name 1 (had hknd)
            cases hlook : buildIndexMap argNames 1 t0.name with
            | none => rw [hlook] at this; simp at this
            | some idx =>
                rcases ih (i + 1)
                  (acc ++ ("ARGV[" ++ toString idx ++ "]") ++ strAt strs (i + 1))
                  hrest with ⟨t', ht', hu', heq⟩
                exact ⟨t', List.mem_cons_of_mem t0 ht', hu', by
                  simp [compileLoop, hknd, hlook, heq]⟩

/-- **C5.** A template containing a reference whose name is absent from
the corresponding declared name list fails to compile: `compileLua`
returns the unknown-reference error carrying an offending reference's
name and kind, and this happens at definition time — the
define-then-execute pipeline aborts with that error having made zero
execute calls and zero upload calls, for every transport and cache. -/
theorem compileLua_fails_on_undeclared_reference
    (keyNames argNames strs : List String) (toks : List LuaToken)
    (hex : ∃ t ∈ toks, Undeclared keyNames argNames t) :
    ∃ t', t' ∈ toks ∧ Undeclared keyNames argNames t' ∧
      compileLua ⟨strs, toks⟩ keyNames argNames = .error ⟨t'.kind, t'.name⟩ ∧
      ∀ (sha : String) (t : Transport) (cache : List String)
        (keys args : List String),
        defineThenRun ⟨strs, toks⟩ keyNames argNames sha t cache keys args =
          ⟨.error ⟨t'.kind, t'.name⟩, [], 0⟩ := by
  rcases compileLoop_error strs toks 0 (strAt strs 0) hex with ⟨t', ht', hu', heq⟩
  refine ⟨t', ht', hu', heq, ?_⟩
  intro sha t cache keys args
  simp [defineThenRun, compileLua] at heq ⊢
  simp [heq]

/-- Witness for C5: a template referencing the undeclared arg `"w"`. -/
theorem compileLua_fails_on_undeclared_reference_witness :
    ∃ t', t' ∈ [LuaToken.mk .key "k", LuaToken.mk .arg "w"] ∧
      Undeclared ["k"] ["v"] t' ∧
      compileLua ⟨["GET ", " ", ""], [⟨.key, "k"⟩, ⟨.arg, "w"⟩]⟩ ["k"] ["v"] =
        .error ⟨t'.kind, t'.name⟩ ∧
      ∀ (sha : String) (t : Transport) (cache : List String)
        (keys args : List String),
        defineThenRun ⟨["GET ", " ", ""], [⟨.key, "k"⟩, ⟨.arg, "w"⟩]⟩
            ["k"] ["v"] sha t cache keys args =
          ⟨.error ⟨t'.kind, t'.name⟩, [], 0⟩ :=
  compileLua_fails_on_undeclared_reference ["k"] ["v"] ["GET ", " ", ""]
    [⟨.key, "k"⟩, ⟨.arg, "w"⟩] ⟨⟨.arg, "w"⟩, by decide, by decide⟩

lemma ensureLoadedSeq_uploads_le_one (l : Except RedisError Unit)
    (cache : List String) (sha : String) :
    (ensureLoadedSeq l cache sha).2.2 ≤ 1 := by
  unfold ensureLoadedSeq
  split
  · simp
  · cases l <;> simp

/-- **C8.** A transport failure is the "script unknown" signal exactly
when the fixed marker token `NOSCRIPT` occurs, case-insensitively, as a
substring of the failure's textual representation (an `Error`'s message
or a thrown string; a failure with no textual representation never
matches); and every first-attempt failure that does not match causes
zero upload calls and is propagated to the caller unchanged, after a
single execute attempt and with the cache untouched. -/
theorem isNoScriptError_marker_match_and_propagation :
    (∀ e : RedisError, isNoScriptError e = true ↔
      ∃ m, textOf e = some m ∧
        "NOSCRIPT".toList <:+: m.toList.map Char.toUpper) ∧
    (∀ (t : Transport) (cache : List String) (o : EvalOpts) (e : RedisError),
      t.firstEval = .error e → isNoScriptError e = false →
      evalWithCache t cache o =
        ⟨.error e, [⟨o.sha, o.keys, o.args⟩], 0, cache⟩) := by
  constructor
  · intro e
    cases e with
    | errObj m => simp [isNoScriptError, textOf, upperHasNoScript]
    | strVal s => simp [isNoScriptError, textOf, upperHasNoScript]
    | otherVal => simp [isNoScriptError, textOf]
  · intro t cache o e hfail hns
    simp [evalWithCache, hfail, hns]

/-- Witness for C8: a first-attempt failure whose message does not
contain the marker is propagated unchanged with zero uploads. -/
theorem isNoScriptError_marker_match_and_propagation_witness :
    evalWithCache
        ⟨.error (.errObj "ERR wrong number of arguments"), .ok (),
          .ok (.vstr "x")⟩ ["h"] ⟨"return 1", "s", ["k"], ["a"]⟩ =
      ⟨.error (.errObj "ERR wrong number of arguments"),
        [⟨"s", ["k"], ["a"]⟩], 0, ["h"]⟩ :=
  isNoScriptError_marker_match_and_propagation.2
    ⟨.error (.errObj "ERR wrong number of arguments"), .ok (), .ok (.vstr "x")⟩
    ["h"] ⟨"return 1", "s", ["k"], ["a"]⟩ (.errObj "ERR wrong number of arguments")
    rfl (by decide)

/-- **C1 counterexample.** A concrete call in which the first execute
attempt fails with the "script unknown" signal and yet the engine does
not perform a further execute attempt: the upload fails, so the call
makes a single execute attempt and its final outcome is the upload
failure, not the result of any second execute attempt (the oracle's
second execute result `.ok "v"` is never consulted).  This refutes the
claim's "exactly one further execute attempt whose result is the final
outcome" for every call whose first attempt fails with the signal. -/
theorem evalWithCache_no_retry_after_failed_upload :
    isNoScriptError (.errObj "NOSCRIPT No matching script. Please use EVAL.")
      = true ∧
    (evalWithCache
      ⟨.error (.errObj "NOSCRIPT No matching script. Please use EVAL."),
        .error (.errObj "ERR upload failed"), .ok (.vstr "v")⟩
      [] ⟨"return 1", "s", ["k1"], ["a1"]⟩).execCalls.length = 1 ∧
    (evalWithCache
      ⟨.error (.errObj "NOSCRIPT No matching script. Please use EVAL."),
        .error (.errObj "ERR upload failed"), .ok (.vstr "v")⟩
      [] ⟨"return 1", "s", ["k1"], ["a1"]⟩).uploadCalls = 1 ∧
    (evalWithCache
      ⟨.error (.errObj "NOSCRIPT No matching script. Please use EVAL."),
        .error (.errObj "ERR upload failed"), .ok (.vstr "v")⟩
      [] ⟨"return 1", "s", ["k1"], ["a1"]⟩).result =
      .error (.errObj "ERR upload failed") :=
  ⟨by decide, by rfl, by rfl, by rfl⟩

/-- **C1 (amended).** For every call to `evalWithCache` whose first
execute attempt fails with the "script unknown" signal, the engine makes
exactly one `ensureLoaded` call; when that call succeeds there is
exactly one further execute attempt, every execute attempt of the call
carries the same sha, keys and args, and the final outcome equals
exactly what the second execute attempt returned; when `ensureLoaded`
fails, its failure is the final outcome and no second execute attempt
happens; and in every call (whatever the transport returns) there are at
most two execute attempts and at most one upload attempt. -/
theorem evalWithCache_single_retry_protocol
    (t : Transport) (cache : List String) (o : EvalOpts) (e : RedisError)
    (hfail : t.firstEval = .error e) (hns : isNoScriptError e = true) :
    (∀ c ∈ (evalWithCache t cache o).execCalls, c = ⟨o.sha, o.keys, o.args⟩) ∧
    (evalWithCache t cache o).uploadCalls =
      (ensureLoadedSeq t.loadResult cache o.sha).2.2 ∧
    ((ensureLoadedSeq t.loadResult cache o.sha).1 = .ok () →
      (evalWithCache t cache o).execCalls.length = 2 ∧
      (evalWithCache t cache o).result = t.retryEval) ∧
    (∀ e', (ensureLoadedSeq t.loadResult cache o.sha).1 = .error e' →
      (evalWithCache t cache o).execCalls.length = 1 ∧
      (evalWithCache t cache o).result = .error e') ∧
    (∀ (t' : Transport) (cache' : List String) (o' : EvalOpts),
      (evalWithCache t' cache' o').execCalls.length ≤ 2 ∧
      (evalWithCache t' cache' o').uploadCalls ≤ 1) := by
  refine ⟨?_, ?_, ?_, ?_, ?_⟩
  · intro c hc
    unfold evalWithCache at hc
    rw [hfail] at hc
    simp only [hns, if_true] at hc
    rcases hel : ensureLoadedSeq t.loadResult cache o.sha with ⟨res, c', u⟩
    rw [hel] at hc
    cases res <;> simp_all
  · unfold evalWithCache
    rw [hfail]
    simp only [hns, if_true]
    rcases hel : ensureLoadedSeq t.loadResult cache o.sha with ⟨res, c', u⟩
    cases res <;> simp
  · intro hok
    unfold evalWithCache
    rw [hfail]
    simp only [hns, if_true]
    rcases hel : ensureLoadedSeq t.loadResult cache o.sha with ⟨res, c', u⟩
    rw [hel] at hok
    simp at hok
    rw [hok]
    simp
  · intro e' herr
    unfold evalWithCache
    rw [hfail]
    simp only [hns, if_true]
    rcases hel : ensureLoadedSeq t.loadResult cache o.sha with ⟨res, c', u⟩
    rw [hel] at herr
    simp at herr
    rw [herr]
    simp
  · intro t' cache' o'
    unfold evalWithCache
    cases t'.firstEval with
    | ok v => simp
    | error e' =>
        by_cases h : isNoScriptError e' = true
        · simp only [h, if_true]
          have := ensureLoadedSeq_uploads_le_one t'.loadResult cache' o'.sha
          rcases hel : ensureLoadedSeq t'.loadResult cache' o'.sha with ⟨res, c', u⟩
          rw [hel] at this
          cases res <;> simpa using this
        · simp [h]

/-- Witness for C1 (amended) on the happy path: empty cache, NOSCRIPT on
the first attempt, successful upload, successful retry. -/
theorem evalWithCache_single_retry_protocol_witness :
    (evalWithCache ⟨.error (.errObj "NOSCRIPT"), .ok (), .ok (.vstr "v")⟩
      [] ⟨"return 1", "s", ["k1"], ["a1"]⟩).execCalls.length = 2 ∧
    (evalWithCache ⟨.error (.errObj "NOSCRIPT"), .ok (), .ok (.vstr "v")⟩
      [] ⟨"return 1", "s", ["k1"], ["a1"]⟩).result = .ok (.vstr "v") :=
  (evalWithCache_single_retry_protocol
    ⟨.error (.errObj "NOSCRIPT"), .ok (), .ok (.vstr "v")⟩
    [] ⟨"return 1", "s", ["k1"], ["a1"]⟩ (.errObj "NOSCRIPT")
    rfl (by decide)).2.2.1 rfl

/-! ## Concurrent model of `ensureLoaded` (`eval-with-cache.ts`)

JavaScript's cooperative scheduling runs every await-free section
atomically.  `ensureLoaded` has exactly these atomic sections per call,
for a fixed connection and a fixed hash:

* lines 65–70: read the per-connection map; on a hit, return the
  existing entry's promise (the caller then awaits that same promise);
* lines 72–76 (the miss branch): invoke `redis.scriptLoad` — the async
  IIFE runs synchronously up to its `await`, so the upload is started —
  and `cache.set(sha, loadPromise)`, all before any suspension; the
  caller then awaits the promise at line 79;
* the continuation after the awaited promise settles: resolution
  completes the call; rejection makes a joiner rethrow, and makes the
  creator first run `cache.delete(sha)` and then rethrow (lines 80–83).

The model is a labelled transition system over these sections.  Each
upload gets a generation number; `proms` records the status of every
started upload's promise, `cacheEntry` the generation currently in the
map (for the one hash under study), `uploads` the number of
`scriptLoad` invocations, and `pcs` one program counter per caller.
`net` labels are the store resolving or rejecting an upload's promise. -/

/-- Status of one upload's promise. -/
inductive PromStatus where
  | pending
  | resolvedOk
  | rejected
deriving DecidableEq, Repr

/-- Program counter of one `ensureLoaded` caller: not yet entered;
awaiting the promise of generation `gen` (as its creator or as a
joiner); returned; or completed by rethrowing the upload failure. -/
inductive CallerPC where
  | start
  | waiting (gen : Nat) (creator : Bool)
  | done
  | failed
deriving DecidableEq, Repr

/-- Global state of the per-connection load cache for one hash, together
with the callers' positions and the upload-invocation count. -/
structure LCState where
  pcs : List CallerPC
  cacheEntry : Option Nat
  proms : List PromStatus
  uploads : Nat
deriving DecidableEq, Repr

/-- A transition label: caller `i` runs its next atomic section, or the
store settles the promise of upload generation `gen`. -/
inductive LCLabel where
  | act (i : Nat)
  | net (gen : Nat) (ok : Bool)
deriving DecidableEq, Repr

/-- The transition function.  `act i` runs caller `i`'s next atomic
section of `ensureLoaded` exactly as in the source: a hit joins the
registered entry; a miss starts the upload, registers the entry and
suspends, all in one step; a settled awaited promise completes the
caller, the creator deleting the entry on rejection before rethrowing.
`net gen ok` lets the store settle a started, still pending upload. -/
def lcStep : LCLabel → LCState → Option LCState
  | .act i, s =>
      match s.pcs.get? i with
      | some .start =>
          match s.cacheEntry with
          | some g => some { s with pcs := s.pcs.set i (.waiting g false) }
          | none =>
              some { s with
                pcs := s.pcs.set i (.waiting s.proms.length true),
                cacheEntry := some s.proms.length,
                proms := s.proms ++ [.pending],
                uploads := s.uploads + 1 }
      | some (.waiting g c) =>
          match s.proms.get? g with
          | some .resolvedOk => some { s with pcs := s.pcs.set i .done }
          | some .rejected =>
              if c then
                some { s with pcs := s.pcs.set i .failed, cacheEntry := none }
              else some { s with pcs := s.pcs.set i .failed }
          | _ => none
      | _ => none
  | .net g ok, s =>
      match s.proms.get? g with
      | some .pending =>
          some { s with
            proms := s.proms.set g (if ok then .resolvedOk else .rejected) }
      | _ => none

/-- Labels that make an upload fail. -/
def failLabel : LCLabel → Bool
  | .net _ ok => !ok
  | _ => false

/-- One step by any label that is not an upload failure. -/
def StepNF (s s' : LCState) : Prop :=
  ∃ l, failLabel l = false ∧ lcStep l s = some s'

/-- Initial state: `n` callers about to call `ensureLoaded` for the same
hash on the same connection, empty per-connection map, no uploads. -/
def lcInit (n : Nat) : LCState :=
  ⟨List.replicate n .start, none, [], 0⟩

/-- States reachable from `lcInit n` along steps in which no upload
fails. -/
def ReachNF (n : Nat) (s : LCState) : Prop :=
  Relation.ReflTransGen StepNF (lcInit n) s

/-- Invariant of failure-free executions: either no upload was ever
started (empty map), or exactly one upload was started, its generation
is the registered entry, and its promise was never rejected. -/
def InvNF (s : LCState) : Prop :=
  (s.cacheEntry = none ∧ s.proms = [] ∧ s.uploads = 0) ∨
  (s.cacheEntry = some 0 ∧ s.proms.length = 1 ∧ s.uploads = 1 ∧
    s.proms.get? 0 ≠ some .rejected)

lemma invNF_step {s s' : LCState} (h : InvNF s) (hs : StepNF s s') :
    InvNF s' := by
  rcases hs with ⟨l, hl, hstep⟩
  cases l with
  | act i =>
      simp only [lcStep] at hstep
      split at hstep
      · -- caller at start
        split at hstep
        · -- hit: only pcs changes
          cases hstep
          rcases h with ⟨h1, h2, h3⟩ | ⟨h1, h2, h3, h4⟩
          · exact Or.inl ⟨h1, h2, h3⟩
          · exact Or.inr ⟨h1, h2, h3, h4⟩
        · -- miss: register generation `proms.length`
          rename_i hnone
          cases hstep
          rcases h with ⟨h1, h2, h3⟩ | ⟨h1, h2, h3, h4⟩
          · refine Or.inr ⟨?_, ?_, ?_, ?_⟩ <;> simp [h2, h3]
          · rw [hnone] at h1
            cases h1
      · -- caller waiting on generation g
        rename_i g c _
        split at hstep
        · -- resolved: only pcs changes
          cases hstep
          rcases h with ⟨h1, h2, h3⟩ | ⟨h1, h2, h3, h4⟩
          · exact Or.inl ⟨h1, h2, h3⟩
          · exact Or.inr ⟨h1, h2, h3, h4⟩
        · -- rejected: impossible in failure-free runs
          rename_i hrej
          exfalso
          rcases h with ⟨h1, h2, h3⟩ | ⟨h1, h2, h3, h4⟩
          · rw [h2] at hrej
            simp at hrej
          · have hlt : g < s.proms.length := by
              by_contra hge
              rw [List.get?_eq_none.mpr (Nat.le_of_not_lt hge)] at hrej
              cases hrej
            have hg : g = 0 := by omega
            rw [hg] at hrej
            exact h4 hrej
        · cases hstep
      · cases hstep
  | net g ok =>
      have hok : ok = true := by
        simp [failLabel] at hl
        exact hl
      subst hok
      simp only [lcStep] at hstep
      split at hstep
      · rename_i hpend
        cases hstep
        rcases h with ⟨h1, h2, h3⟩ | ⟨h1, h2, h3, h4⟩
        · rw [h2] at hpend
          simp at hpend
        · have hlt : g < s.proms.length := by
            by_contra hge
            rw [List.get?_eq_none.mpr (Nat.le_of_not_lt hge)] at hpend
            cases hpend
          have hg : g = 0 := by omega
          subst hg
          refine Or.inr ⟨h1, by simp [h2], h3, ?_⟩
          intro hcontra
          simp only [List.get?_eq_getElem?] at hcontra
          rw [List.getElem?_set_eq_of_lt _ hlt] at hcontra
          simp at hcontra
      · cases hstep

lemma reachNF_inv {n : Nat} {s : LCState} (h : ReachNF n s) : InvNF s := by
  induction h with
  | refl => exact Or.inl ⟨rfl, rfl, rfl⟩
  | tail _ hstep ih => exact invNF_step ih hstep

/-- **C3.** In every failure-free execution of any number of concurrent
`ensureLoaded` callers for one hash on one connection, the upload
primitive is invoked at most once; and whenever a cache entry exists
(whether its upload is still in flight or already completed), a caller's
`ensureLoaded` step joins exactly that entry's completion — the
resulting state differs only in that caller now waiting on the
registered generation, with no new upload and the map untouched. -/
theorem ensureLoaded_single_flight (n : Nat) (s : LCState)
    (h : ReachNF n s) :
    s.uploads ≤ 1 ∧
    (∀ i g, s.cacheEntry = some g → s.pcs.get? i = some .start →
      lcStep (.act i) s =
        some { s with pcs := s.pcs.set i (.waiting g false) }) := by
  constructor
  · rcases reachNF_inv h with ⟨_, _, h3⟩ | ⟨_, _, h3, _⟩ <;> omega
  · intro i g hentry hpc
    rw [List.get?_eq_getElem?] at hpc
    simp [lcStep, hpc, hentry]

/-- Witness for C3: the state after one caller of two has registered the
upload, reached by a single failure-free step from the initial state. -/
theorem ensureLoaded_single_flight_witness :
    (⟨[CallerPC.waiting 0 true, CallerPC.start], some 0,
        [PromStatus.pending], 1⟩ : LCState).uploads ≤ 1 ∧
    (∀ i g,
      (⟨[CallerPC.waiting 0 true, CallerPC.start], some 0,
          [PromStatus.pending], 1⟩ : LCState).cacheEntry = some g →
      (⟨[CallerPC.waiting 0 true, CallerPC.start], some 0,
          [PromStatus.pending], 1⟩ : LCState).pcs.get? i = some .start →
      lcStep (.act i)
          (⟨[CallerPC.waiting 0 true, CallerPC.start], some 0,
            [PromStatus.pending], 1⟩ : LCState) =
        some { (⟨[CallerPC.waiting 0 true, CallerPC.start], some 0,
            [PromStatus.pending], 1⟩ : LCState) with
          pcs := [CallerPC.waiting 0 true, CallerPC.start].set i
            (.waiting g false) }) :=
  ensureLoaded_single_flight 2
    ⟨[CallerPC.waiting 0 true, CallerPC.start], some 0, [PromStatus.pending], 1⟩
    (Relation.ReflTransGen.single ⟨LCLabel.act 0, rfl, rfl⟩)

/-- **C2.** In every failure-free execution: a caller that detects a
cache miss creates and registers the entry and starts the upload in one
atomic step (the source section from the miss check through
`cache.set` contains no suspension point, so no other step can be
interleaved); the store can settle an upload only in states where that
upload's entry is already registered in the map (registration strictly
precedes the upload being performed); and every caller arriving at or
after the insertion observes that same entry and joins it. -/
theorem ensureLoaded_registers_entry_before_upload (n : Nat) (s : LCState)
    (h : ReachNF n s) :
    (∀ i, s.pcs.get? i = some .start → s.cacheEntry = none →
      lcStep (.act i) s = some { s with
        pcs := s.pcs.set i (.waiting s.proms.length true),
        cacheEntry := some s.proms.length,
        proms := s.proms ++ [.pending],
        uploads := s.uploads + 1 }) ∧
    (∀ g b s', lcStep (.net g b) s = some s' → s.cacheEntry = some g) ∧
    (∀ j g, s.cacheEntry = some g → s.pcs.get? j = some .start →
      lcStep (.act j) s =
        some { s with pcs := s.pcs.set j (.waiting g false) }) := by
  refine ⟨?_, ?_, ?_⟩
  · intro i hpc hnone
    rw [List.get?_eq_getElem?] at hpc
    simp [lcStep, hpc, hnone]
  · intro g b s' hstep
    simp only [lcStep] at hstep
    split at hstep
    · rename_i hpend
      rcases reachNF_inv h with ⟨h1, h2, h3⟩ | ⟨h1, h2, h3, h4⟩
      · rw [h2] at hpend
        simp at hpend
      · have hlt : g < s.proms.length := by
          by_contra hge
          rw [List.get?_eq_none.mpr (Nat.le_of_not_lt hge)] at hpend
          cases hpend
        have hg : g = 0 := by omega
        rw [hg, h1]
    · cases hstep
  · intro j g hentry hpc
    rw [List.get?_eq_getElem?] at hpc
    simp [lcStep, hpc, hentry]

/-- Witness for C2 at the initial state of one caller. -/
theorem ensureLoaded_registers_entry_before_upload_witness :
    (∀ i, (lcInit 1).pcs.get? i = some .start → (lcInit 1).cacheEntry = none →
      lcStep (.act i) (lcInit 1) = some { (lcInit 1) with
        pcs := (lcInit 1).pcs.set i (.waiting (lcInit 1).proms.length true),
        cacheEntry := some (lcInit 1).proms.length,
        proms := (lcInit 1).proms ++ [.pending],
        uploads := (lcInit 1).uploads + 1 }) ∧
    (∀ g b s', lcStep (.net g b) (lcInit 1) = some s' →
      (lcInit 1).cacheEntry = some g) ∧
    (∀ j g, (lcInit 1).cacheEntry = some g →
      (lcInit 1).pcs.get? j = some .start →
      lcStep (.act j) (lcInit 1) =
        some { (lcInit 1) with pcs := (lcInit 1).pcs.set j (.waiting g false) }) :=
  ensureLoaded_registers_entry_before_upload 1 (lcInit 1)
    Relation.ReflTransGen.refl

/-- **C7.** When the upload a creator is awaiting has been rejected, the
creator's completion step removes the entry from the map and completes
that `ensureLoaded` call by rethrowing the failure; in the resulting
state every current waiter's completion step propagates the same
failure; the map holds no entry for the hash; and any subsequent caller
hitting the now empty map starts the upload again from scratch (its
step performs a new upload invocation and registers a fresh entry). -/
theorem ensureLoaded_failure_resets_cache (s : LCState) (i g : Nat)
    (hpc : s.pcs.get? i = some (.waiting g true))
    (hrej : s.proms.get? g = some .rejected) :
    lcStep (.act i) s =
      some { s with pcs := s.pcs.set i CallerPC.failed, cacheEntry := none } ∧
    (∀ j, (s.pcs.set i CallerPC.failed).get? j = some (.waiting g false) →
      lcStep (.act j)
          { s with pcs := s.pcs.set i CallerPC.failed, cacheEntry := none } =
        some { s with
          pcs := (s.pcs.set i CallerPC.failed).set j CallerPC.failed,
          cacheEntry := none }) ∧
    ({ s with
        pcs := s.pcs.set i CallerPC.failed,
        cacheEntry := none } : LCState).cacheEntry = none ∧
    (∀ j, (s.pcs.set i CallerPC.failed).get? j = some .start →
      ∀ s'', lcStep (.act j)
          { s with pcs := s.pcs.set i CallerPC.failed, cacheEntry := none } =
            some s'' →
        s''.uploads = s.uploads + 1 ∧
        s''.cacheEntry = some s.proms.length) := by
  rw [List.get?_eq_getElem?] at hpc hrej
  refine ⟨?_, ?_, rfl, ?_⟩
  · simp [lcStep, hpc, hrej]
  · intro j hj
    rw [List.get?_eq_getElem?] at hj
    simp [lcStep, hj, hrej]
  · intro j hj s'' hstep
    rw [List.get?_eq_getElem?] at hj
    simp [lcStep, hj] at hstep
    rw [← hstep]
    exact ⟨rfl, rfl⟩

/-- Witness for C7: a creator and a joiner awaiting a rejected upload,
with a third caller yet to arrive. -/
theorem ensureLoaded_failure_resets_cache_witness :
    lcStep (.act 0)
        (⟨[CallerPC.waiting 0 true, CallerPC.waiting 0 false, CallerPC.start],
          some 0, [PromStatus.rejected], 1⟩ : LCState) =
      some { (⟨[CallerPC.waiting 0 true, CallerPC.waiting 0 false,
          CallerPC.start], some 0, [PromStatus.rejected], 1⟩ : LCState) with
        pcs := [CallerPC.waiting 0 true, CallerPC.waiting 0 false,
          CallerPC.start].set 0 CallerPC.failed,
        cacheEntry := none } :=
  (ensureLoaded_failure_resets_cache
    ⟨[CallerPC.waiting 0 true, CallerPC.waiting 0 false, CallerPC.start],
      some 0, [PromStatus.rejected], 1⟩ 0 0 rfl rfl).1

/-! ## Validation boundary (`define-script.ts`, `standard-schema.ts`,
`errors.ts`)

A validation capability (a `StandardSchemaV1` schema, normalized by
`validateStandard`/`parseStandard`) either accepts a value, yielding a
transformed value, or rejects it with a list of issues.  The embedding
gives each declared field name its capability and its caller-provided
input value (`input.keys?.[name]`, `undefined` when omitted) as
functions of the name.  `validateAndCollect` walks the declared key
names and then the declared arg names in order, failing fast; the paths
of the fields whose capability was actually invoked are recorded in
order so that fail-fast sequencing is observable. -/

/-- A validation issue reported by a capability (`ValidationIssue` in
`errors.ts`; the embedding keeps the message, the only part this library
itself consumes). -/
structure Issue where
  message : String
deriving DecidableEq, Repr

/-- The errors an execution can raise: `ScriptInputError(scriptName,
path, issues)` from `parseStandard` on input validation failure; the
`TypeError` thrown by `validateAndCollect` when a key/arg capability
outputs a non-string; a transport failure; and
`ScriptReturnError(scriptName, issues, raw)` from `parseStandard` on
return validation failure. -/
inductive RunErr where
  | inputError (scriptName : String) (path : String) (issues : List Issue)
  | contractError (fieldName : String)
  | redisFailure (e : RedisError)
  | returnError (scriptName : String) (issues : List Issue) (raw : JSVal)
deriving DecidableEq, Repr

/-- One field loop of `validateAndCollect` (`define-script.ts`
lines 230–247 for keys with label `"keys"`, lines 249–266 for args with
label `"args"`): for each declared name in order, validate the provided
value through the field's capability; on failure raise
`ScriptInputError` with path `<label>.<name>` and the capability's
issues, stopping immediately; on a non-string output raise the
`TypeError`; otherwise collect the string and continue.  Also returns
the paths of the fields whose capability was invoked, in order. -/
def fieldPath (label n : String) : String := label ++ "." ++ n

def processFields (scriptName kindLabel : String)
    (caps : String → JSVal → Except (List Issue) JSVal)
    (inputs : String → JSVal) :
    List String → Except RunErr (List String) × List String
  | [] => (.ok [], [])
  | n :: rest =>
      let path := fieldPath kindLabel n
      match caps n (inputs n) with
      | .error iss => (.error (.inputError scriptName path iss), [path])
      | .ok (.vstr s) =>
          let pr := processFields scriptName kindLabel caps inputs rest
          (match pr.1 with
           | .ok l => .ok (s :: l)
           | .error e => .error e, path :: pr.2)
      | .ok _ => (.error (.contractError n), [path])

/-- `validateAndCollect` from `define-script.ts`: declared key names in
declared order, then declared arg names in declared order, fail-fast. -/
def validateAndCollect (scriptName : String)
    (keyNames argNames : List String)
    (keyCaps argCaps : String → JSVal → Except (List Issue) JSVal)
    (keyInputs argInputs : String → JSVal) :
    Except RunErr (List String × List String) × List String :=
  match processFields scriptName "keys" keyCaps keyInputs keyNames with
  | (.error e, kvis) => (.error e, kvis)
  | (.ok ks, kvis) =>
      match processFields scriptName "args" argCaps argInputs argNames with
      | (.error e, avis) => (.error e, kvis ++ avis)
      | (.ok as2, avis) => (.ok (ks, as2), kvis ++ avis)

/-- The observable outcome of `execute`/`run`: the result, the field
paths validated in order, and the execute/upload calls made. -/
structure ExecOutcome where
  result : Except RunErr JSVal
  visited : List String
  execCalls : List EvalCall
  uploadCalls : Nat
deriving Repr

/-- `execute` from `defineScript`: validate and collect the inputs, then
resolve the (memoized) sha and call `evalWithCache`.  A validation
failure propagates before any transport interaction: no execute call and
no upload call is made. -/
def executeScript (scriptName : String) (keyNames argNames : List String)
    (keyCaps argCaps : String → JSVal → Except (List Issue) JSVal)
    (keyInputs argInputs : String → JSVal)
    (lua sha : String) (t : Transport) (cache : List String) : ExecOutcome :=
  match validateAndCollect scriptName keyNames argNames keyCaps argCaps
      keyInputs argInputs with
  | (.error e, vis) => ⟨.error e, vis, [], 0⟩
  | (.ok (ks, as2), vis) =>
      let out := evalWithCache t cache ⟨lua, sha, ks, as2⟩
      ⟨out.result.mapError .redisFailure, vis, out.execCalls, out.uploadCalls⟩

/-- The `run` method from `defineScript`: execute, then — only if a
`returns` capability is configured — validate the raw result through it,
raising `ScriptReturnError(scriptName, issues, raw)` on rejection and
returning the transformed value on acceptance; with no `returns`
capability the raw result is returned unchanged. -/
def runScript (returnsCap : Option (JSVal → Except (List Issue) JSVal))
    (scriptName : String) (keyNames argNames : List String)
    (keyCaps argCaps : String → JSVal → Except (List Issue) JSVal)
    (keyInputs argInputs : String → JSVal)
    (lua sha : String) (t : Transport) (cache : List String) : ExecOutcome :=
  let out := executeScript scriptName keyNames argNames keyCaps argCaps
    keyInputs argInputs lua sha t cache
  match out.result with
  | .error _ => out
  | .ok raw =>
      match returnsCap with
      | none => out
      | some cap =>
          match cap raw with
          | .ok v => { out with result := .ok v }
          | .error iss =>
              { out with result := .error (.returnError scriptName iss raw) }

lemma processFields_all_ok {scriptName kindLabel : String}
    {caps : String → JSVal → Except (List Issue) JSVal}
    {inputs : String → JSVal} {names : List String}
    (h : ∀ n ∈ names, ∃ s, caps n (inputs n) = .ok (.vstr s)) :
    ∃ l, processFields scriptName kindLabel caps inputs names =
      (.ok l, names.map (fieldPath kindLabel)) := by
  induction names with
  | nil => exact ⟨[], rfl⟩
  | cons n rest ih =>
      rcases h n (List.mem_cons_self n rest) with ⟨s, hs⟩
      rcases ih (fun m hm => h m (List.mem_cons_of_mem n hm)) with ⟨l, hl⟩
      refine ⟨s :: l, ?_⟩
      simp [processFields, hs, hl]

lemma processFields_fail_fast {scriptName kindLabel : String}
    {caps : String → JSVal → Except (List Issue) JSVal}
    {inputs : String → JSVal} {pre post : List String} {nf : String}
    {iss : List Issue}
    (hpre : ∀ n ∈ pre, ∃ s, caps n (inputs n) = .ok (.vstr s))
    (hf : caps nf (inputs nf) = .error iss) :
    processFields scriptName kindLabel caps inputs (pre ++ nf :: post) =
      (.error (.inputError scriptName (fieldPath kindLabel nf) iss),
        pre.map (fieldPath kindLabel) ++ [fieldPath kindLabel nf]) := by
  induction pre with
  | nil => simp [processFields, hf]
  | cons n rest ih =>
      rcases hpre n (List.mem_cons_self n rest) with ⟨s, hs⟩
      have ih' := ih (fun m hm => hpre m (List.mem_cons_of_mem n hm))
      simp [processFields, hs, ih']

/-- **C6.** In every execution, declared key names are validated in
declared order, followed by declared arg names in declared order, and
validation is fail-fast: when every field before some field fails-free
succeeds (producing a string) and that field's capability fails with
issues `iss`, the execution raises exactly the input `ValidationError`
carrying the script name, the field path (`keys.<name>` or
`args.<name>`) and those issues; the fields actually validated are
precisely the declared fields up to and including the failing one, in
declared order, and no execute call and no upload call is made. -/
theorem input_validation_fail_fast
    (scriptName : String) (keyNames argNames : List String)
    (keyCaps argCaps : String → JSVal → Except (List Issue) JSVal)
    (keyInputs argInputs : String → JSVal)
    (lua sha : String) (t : Transport) (cache : List String)
    (nf failPath : String) (iss : List Issue) (vis : List String)
    (hcase :
      (∃ k1 k2, keyNames = k1 ++ nf :: k2 ∧
        (∀ n ∈ k1, ∃ s, keyCaps n (keyInputs n) = .ok (.vstr s)) ∧
        keyCaps nf (keyInputs nf) = .error iss ∧
        failPath = fieldPath "keys" nf ∧
        vis = k1.map (fieldPath "keys") ++ [failPath]) ∨
      (∃ a1 a2, argNames = a1 ++ nf :: a2 ∧
        (∀ n ∈ keyNames, ∃ s, keyCaps n (keyInputs n) = .ok (.vstr s)) ∧
        (∀ n ∈ a1, ∃ s, argCaps n (argInputs n) = .ok (.vstr s)) ∧
        argCaps nf (argInputs nf) = .error iss ∧
        failPath = fieldPath "args" nf ∧
        vis = keyNames.map (fieldPath "keys") ++
          (a1.map (fieldPath "args") ++ [failPath]))) :
    executeScript scriptName keyNames argNames keyCaps argCaps
        keyInputs argInputs lua sha t cache =
      ⟨.error (.inputError scriptName failPath iss), vis, [], 0⟩ := by
  rcases hcase with
    ⟨k1, k2, hkn, hok, hf, hp, hv⟩ | ⟨a1, a2, han, hkok, haok, hf, hp, hv⟩
  · subst hkn hp hv
    unfold executeScript validateAndCollect
    rw [processFields_fail_fast hok hf]
  · subst han hp hv
    rcases processFields_all_ok hkok with ⟨l, hl⟩
    unfold executeScript validateAndCollect
    rw [hl, processFields_fail_fast haok hf]

/-- Witness for C6, matching the spec's example: `args.limit` failing
with issue `"must be positive"` after the single key validated, with no
execute and no upload call. -/
theorem input_validation_fail_fast_witness :
    executeScript "rateLimit" ["key"] ["limit"]
        (fun _ _ => .ok (.vstr "rl:user:123"))
        (fun _ _ => .error [⟨"must be positive"⟩])
        (fun _ => .vstr "rl:user:123") (fun _ => .vnum (-1))
        "return 1" "sha" ⟨.ok (.vstr "ok"), .ok (), .ok (.vstr "ok")⟩ [] =
      ⟨.error (.inputError "rateLimit" "args.limit" [⟨"must be positive"⟩]),
        ["keys.key", "args.limit"], [], 0⟩ :=
  input_validation_fail_fast "rateLimit" ["key"] ["limit"]
    (fun _ _ => .ok (.vstr "rl:user:123"))
    (fun _ _ => .error [⟨"must be positive"⟩])
    (fun _ => .vstr "rl:user:123") (fun _ => .vnum (-1))
    "return 1" "sha" ⟨.ok (.vstr "ok"), .ok (), .ok (.vstr "ok")⟩ []
    "limit" "args.limit" [⟨"must be positive"⟩] ["keys.key", "args.limit"]
    (Or.inr ⟨[], [], rfl, fun _ _ => ⟨"rl:user:123", rfl⟩,
      fun n hn => absurd hn (List.not_mem_nil n), rfl, rfl, rfl⟩)

/-- **C9.** For every execution via `run` whose underlying execution
produced raw result `raw`: with no return capability configured, `run`
returns the whole execution outcome — in particular the raw result —
unchanged and untouched; with a configured capability that rejects
`raw` with issues `iss`, `run` raises the return `ValidationError`
carrying the script name, those issues, and the original raw value;
with a capability that accepts, its transformed value is returned. -/
theorem run_return_validation
    (returnsCap : Option (JSVal → Except (List Issue) JSVal))
    (scriptName : String) (keyNames argNames : List String)
    (keyCaps argCaps : String → JSVal → Except (List Issue) JSVal)
    (keyInputs argInputs : String → JSVal)
    (lua sha : String) (t : Transport) (cache : List String) (raw : JSVal)
    (hexec : (executeScript scriptName keyNames argNames keyCaps argCaps
        keyInputs argInputs lua sha t cache).result = .ok raw) :
    (returnsCap = none →
      runScript returnsCap scriptName keyNames argNames keyCaps argCaps
          keyInputs argInputs lua sha t cache =
        executeScript scriptName keyNames argNames keyCaps argCaps
          keyInputs argInputs lua sha t cache ∧
      (runScript returnsCap scriptName keyNames argNames keyCaps argCaps
          keyInputs argInputs lua sha t cache).result = .ok raw) ∧
    (∀ cap iss, returnsCap = some cap → cap raw = .error iss →
      (runScript returnsCap scriptName keyNames argNames keyCaps argCaps
          keyInputs argInputs lua sha t cache).result =
        .error (.returnError scriptName iss raw)) ∧
    (∀ cap v, returnsCap = some cap → cap raw = .ok v →
      (runScript returnsCap scriptName keyNames argNames keyCaps argCaps
          keyInputs argInputs lua sha t cache).result = .ok v) := by
  refine ⟨?_, ?_, ?_⟩
  · intro hnone
    subst hnone
    constructor
    · simp [runScript, hexec]
    · simp [runScript, hexec]
  · intro cap iss hsome hcap
    subst hsome
    simp [runScript, hexec, hcap]
  · intro cap v hsome hcap
    subst hsome
    simp [runScript, hexec, hcap]

/-- Witness for C9, matching the spec's example: a return capability
rejecting the raw value `"not-a-number"` raises a return error whose
raw field equals `"not-a-number"`. -/
theorem run_return_validation_witness :
    (runScript (some (fun _ => .error [⟨"Expected number"⟩])) "myScript"
        [] [] (fun _ _ => .ok (.vstr "")) (fun _ _ => .ok (.vstr ""))
        (fun _ => .vundef) (fun _ => .vundef) "return ARGV[1]" "sha"
        ⟨.ok (.vstr "not-a-number"), .ok (), .ok (.vstr "not-a-number")⟩
        []).result =
      .error (.returnError "myScript" [⟨"Expected number"⟩]
        (.vstr "not-a-number")) :=
  (run_return_validation (some (fun _ => .error [⟨"Expected number"⟩]))
    "myScript" [] [] (fun _ _ => .ok (.vstr "")) (fun _ _ => .ok (.vstr ""))
    (fun _ => .vundef) (fun _ => .vundef) "return ARGV[1]" "sha"
    ⟨.ok (.vstr "not-a-number"), .ok (), .ok (.vstr "not-a-number")⟩
    [] (.vstr "not-a-number") rfl).2.1
    (fun _ => .error [⟨"Expected number"⟩]) [⟨"Expected number"⟩] rfl rfl

/-! ## `hashResult` (`hash-result.ts`)

`hashResult` wraps an object schema so that it accepts the flat
`HGETALL`-style array of alternating keys and values.  JS values are
embedded as `HVal`; a JS object is embedded extensionally as the map
`String → Option HVal` of its properties, which is all a schema's
validation observes (`result[key] = value` is a map update, a later
assignment to the same key overwriting an earlier one).  The wrapped
validator never throws: the exceptions of `pairsToObject` are caught
and turned into an issues result. -/

/-- A JS value as `hashResult` observes it: a string, a number, an
array, or anything else. -/
inductive HVal where
  | hstr (s : String)
  | hnum (n : Int)
  | harr (l : List HVal)
  | hother
deriving Repr

/-- Whether a value is a string (`typeof key === "string"`). -/
def isStrV : HVal → Bool
  | .hstr _ => true
  | _ => false

/-- The `for` loop of `pairsToObject` (`hash-result.ts` lines 31–43),
two elements per step: require the element at each even index to be a
string and assign `result[key] = value`.  The thrown `Error`s become
`Except.error` of their message (the embedding drops the source's
interpolated index/type details from the message).  The one-element
case cannot be reached: the caller rejects odd-length arrays first. -/
def pairsLoop : List HVal → (String → Option HVal) →
    Except String (String → Option HVal)
  | [], acc => .ok acc
  | .hstr k :: v :: rest, acc =>
      pairsLoop rest (fun x => if x = k then some v else acc x)
  | _ :: _ :: _, _ => .error "Expected string key"
  | [_], _ => .error "Expected string key"

/-- `pairsToObject` from `hash-result.ts`: reject non-arrays, reject
odd-length arrays, then run the pair loop on an initially empty
object. -/
def pairsToObject (v : HVal) : Except String (String → Option HVal) :=
  match v with
  | .harr l =>
      if l.length % 2 ≠ 0 then
        .error "Expected even number of elements (key-value pairs)"
      else pairsLoop l (fun _ => none)
  | _ => .error "Expected array of key-value pairs"

/-- The `validate` function of the schema produced by `hashResult`
(`hash-result.ts` lines 98–123), for a synchronous inner schema: catch
any `pairsToObject` failure as a one-issue failure result; otherwise
validate the converted object with the inner schema and return that
schema's result unchanged. -/
def hashResultValidate
    (schema : (String → Option HVal) → Except (List Issue) HVal)
    (value : HVal) : Except (List Issue) HVal :=
  match pairsToObject value with
  | .error msg => .error [⟨msg⟩]
  | .ok obj => schema obj

/-- Spec-side object described by the claim: the object pairing each
even-index element (a string key) with the following element, a later
pair for the same key taking precedence, exactly as repeated JS
property assignment behaves. -/
def specPairsObj : List HVal → (String → Option HVal)
  | .hstr k :: v :: rest =>
      fun x =>
        match specPairsObj rest x with
        | some w => some w
        | none => if x = k then some v else none
  | _ => fun _ => none

lemma pairsLoop_spec :
    ∀ (n : Nat) (l : List HVal), l.length ≤ n → l.length % 2 = 0 →
    (∀ i, ∀ h : i < l.length, i % 2 = 0 → isStrV (l.get ⟨i, h⟩) = true) →
    ∀ acc, pairsLoop l acc =
      .ok (fun x =>
        match specPairsObj l x with
        | some w => some w
        | none => acc x) := by
  intro n
  induction n with
  | zero =>
      intro l hl _ _ acc
      have hnil : l = [] := List.length_eq_zero.mp (Nat.le_zero.mp hl)
      subst hnil
      refine congrArg Except.ok (funext fun x => ?_)
      simp [specPairsObj]
  | succ m ih =>
      intro l hl heven hstr acc
      match l with
      | [] =>
          refine congrArg Except.ok (funext fun x => ?_)
          simp [specPairsObj]
      | a :: [] =>
          exfalso
          simp at heven
      | a :: b :: rest =>
          have ha : isStrV a = true := hstr 0 (by simp) (by simp)
          match a, ha with
          | .hstr k, _ =>
              have hrest : ∀ i, ∀ h : i < rest.length, i % 2 = 0 →
                  isStrV (rest.get ⟨i, h⟩) = true := by
                intro i h hi
                have := hstr (i + 2) (by simp; omega) (by omega)
                simpa using this
              have hlen : rest.length ≤ m := by
                simp at hl
                omega
              have heven' : rest.length % 2 = 0 := by
                simp at heven
                omega
              rw [pairsLoop, ih rest hlen heven' hrest]
              refine congrArg Except.ok (funext fun x => ?_)
              simp only [specPairsObj]
              cases specPairsObj rest x with
              | some w => simp
              | none => by_cases hx : x = k <;> simp [hx]

lemma pairsLoop_error :
    ∀ (n : Nat) (l : List HVal), l.length ≤ n → l.length % 2 = 0 →
    (∃ i, ∃ h : i < l.length, i % 2 = 0 ∧ isStrV (l.get ⟨i, h⟩) = false) →
    ∀ acc, ∃ msg, pairsLoop l acc = .error msg := by
  intro n
  induction n with
  | zero =>
      intro l hl _ hbad _
      have hnil : l = [] := List.length_eq_zero.mp (Nat.le_zero.mp hl)
      subst hnil
      rcases hbad with ⟨i, h, _⟩
      simp at h
  | succ m ih =>
      intro l hl heven hbad acc
      match l with
      | [] =>
          rcases hbad with ⟨i, h, _⟩
          simp at h
      | [a] => simp at heven
      | a :: b :: rest =>
          cases a with
          | hstr k =>
              rcases hbad with ⟨i, h, hi, hb⟩
              match i, h, hi, hb with
              | 0, h, hi, hb => simp [isStrV] at hb
              | 1, h, hi, hb => simp at hi
              | (j + 2), h, hi, hb =>
                  have hj : j < rest.length := by
                    simp at h
                    omega
                  have hb' : isStrV (rest.get ⟨j, hj⟩) = false := by
                    simpa using hb
                  rcases ih rest (by simp at hl; omega)
                      (by simp at heven; omega)
                      ⟨j, hj, by omega, hb'⟩
                      (fun x => if x = k then some b else acc x) with ⟨msg, hmsg⟩
                  exact ⟨msg, by rw [pairsLoop, hmsg]⟩
          | hnum nn => exact ⟨"Expected string key", rfl⟩
          | harr ll => exact ⟨"Expected string key", rfl⟩
          | hother => exact ⟨"Expected string key", rfl⟩

/-- **C10.** The schema produced by `hashResult(S)` validates an input
as follows.  If the input is an array of even length whose elements at
even indices are all strings, the input is converted to the object
pairing each even-index element with the following element (a later
pair for the same key taking precedence, as repeated JS property
assignment does) and that object is validated by the inner schema `S`,
whose result is returned unchanged.  For every other input — a
non-array, an odd-length array, or an array with a non-string at an
even index — it returns a failure result containing at least one issue;
being a total function of the embedding, it never throws (the
`pairsToObject` exceptions are caught and converted to issues). -/
theorem hashResult_array_pairs_validation (v : HVal)
    (schema : (String → Option HVal) → Except (List Issue) HVal) :
    (∀ l, v = .harr l → l.length % 2 = 0 →
      (∀ i, ∀ h : i < l.length, i % 2 = 0 → isStrV (l.get ⟨i, h⟩) = true) →
      pairsToObject v = .ok (specPairsObj l) ∧
      hashResultValidate schema v = schema (specPairsObj l)) ∧
    ((∀ l, v ≠ .harr l) ∨
      (∃ l, v = .harr l ∧ l.length % 2 = 1) ∨
      (∃ l, v = .harr l ∧ l.length % 2 = 0 ∧
        ∃ i, ∃ h : i < l.length, i % 2 = 0 ∧ isStrV (l.get ⟨i, h⟩) = false) →
      ∃ iss, hashResultValidate schema v = .error iss ∧ 1 ≤ iss.length) := by
  constructor
  · intro l hv heven hstr
    subst hv
    have hloop := pairsLoop_spec l.length l le_rfl heven hstr (fun _ => none)
    have hobj : pairsToObject (.harr l) = .ok (specPairsObj l) := by
      have hcond : ¬ l.length % 2 ≠ 0 := by omega
      simp only [pairsToObject, if_neg hcond]
      rw [hloop]
      refine congrArg Except.ok (funext fun x => ?_)
      cases specPairsObj l x <;> simp
    exact ⟨hobj, by simp [hashResultValidate, hobj]⟩
  · intro hbad
    rcases hbad with hnot | ⟨l, hv, hodd⟩ | ⟨l, hv, heven, hbadi⟩
    · cases v with
      | harr l => exact absurd rfl (hnot l)
      | hstr s => exact ⟨[⟨"Expected array of key-value pairs"⟩], rfl, by simp⟩
      | hnum nn => exact ⟨[⟨"Expected array of key-value pairs"⟩], rfl, by simp⟩
      | hother => exact ⟨[⟨"Expected array of key-value pairs"⟩], rfl, by simp⟩
    · subst hv
      refine ⟨[⟨"Expected even number of elements (key-value pairs)"⟩], ?_, by simp⟩
      simp [hashResultValidate, pairsToObject, hodd]
    · subst hv
      rcases pairsLoop_error l.length l le_rfl heven hbadi (fun _ => none) with
        ⟨msg, hmsg⟩
      refine ⟨[⟨msg⟩], ?_, by simp⟩
      simp [hashResultValidate, pairsToObject, heven, hmsg]

/-- Witness for C10 on a well-formed HGETALL-style array: the inner
schema receives the converted object and its result is returned. -/
theorem hashResult_array_pairs_validation_witness :
    pairsToObject (.harr [.hstr "name", .hstr "Ada", .hstr "age", .hnum 36]) =
      .ok (specPairsObj [.hstr "name", .hstr "Ada", .hstr "age", .hnum 36]) ∧
    hashResultValidate
        (fun obj =>
          match obj "name" with
          | some w => .ok w
          | none => .error [⟨"missing name"⟩])
        (.harr [.hstr "name", .hstr "Ada", .hstr "age", .hnum 36]) =
      (fun obj =>
          match obj "name" with
          | some w => .ok w
          | none => .error [⟨"missing name"⟩])
        (specPairsObj [.hstr "name", .hstr "Ada", .hstr "age", .hnum 36]) :=
  (hashResult_array_pairs_validation
    (.harr [.hstr "name", .hstr "Ada", .hstr "age", .hnum 36])
    (fun obj =>
      match obj "name" with
      | some w => .ok w
      | none => .error [⟨"missing name"⟩])).1
    [.hstr "name", .hstr "Ada", .hstr "age", .hnum 36] rfl (by decide)
    (by decide)

end UpstashLua
